import Mathlib

/-!
Verification of the genomelake repository: a shallow embedding of the
utility module (`genomelake/util.py`) and the extractor framework
(`genomelake/extractors.py`), together with proofs of the specified
properties.

Numeric array cells are modelled as exact values: one-hot encoding uses
rationals (only 0, 1 and 1/4 arise), and signal-track data uses a value
type with an explicit NaN constructor, since NaN handling is part of the
specified behaviour.
-/

namespace Genomelake

/-! ## Definitions: genomelake/util.py -/

/-- `char2index(ch)`: A/a -> 0, C/c -> 1, G/g -> 2, T/t -> 3,
N/n -> -1 (ambiguous sentinel); any other character raises
`ValueError('Invalid base encountered.')`. -/
def char2index (ch : Char) : Except String Int :=
  if ch = 'A' ∨ ch = 'a' then .ok 0
  else if ch = 'C' ∨ ch = 'c' then .ok 1
  else if ch = 'G' ∨ ch = 'g' then .ok 2
  else if ch = 'T' ∨ ch = 't' then .ok 3
  else if ch = 'N' ∨ ch = 'n' then .ok (-1)
  else .error "Invalid base encountered."

/-- The ten characters `char2index` accepts. -/
def dnaAlphabet : List Char := ['A', 'a', 'C', 'c', 'G', 'g', 'T', 't', 'N', 'n']

/-- A 2D numpy array of rationals: the numpy shape metadata
`(shape0, shape1)` plus the row data. -/
structure Mat where
  shape0 : Nat
  shape1 : Nat
  data : List (List ℚ)
deriving DecidableEq, Repr

/-- A fresh zero array, `np.zeros((n, m))`. -/
def zerosMat (n m : Nat) : Mat :=
  ⟨n, m, List.replicate n (List.replicate m 0)⟩

/-- `encoded[i, j] = v` on the row data. -/
def setCell (m : List (List ℚ)) (i j : Nat) (v : ℚ) : List (List ℚ) :=
  m.set i ((m.getD i []).set j v)

/-- `encoded[i, :] = v` on the row data. -/
def setRowUniform (m : List (List ℚ)) (i : Nat) (v : ℚ) : List (List ℚ) :=
  m.set i ((m.getD i []).map fun _ => v)

/-- Result of `one_hot_encode_sequence`: either normal return or a raised
error; in both cases the (possibly partially mutated) caller array is
carried, since the Python array retains the mutations made before an
exception. -/
inductive OneHotResult where
  | ok (encoded : Mat)
  | err (msg : String) (encoded : Mat)
deriving DecidableEq, Repr

/-- The `for row_idx, base in enumerate(seq)` loop of
`one_hot_encode_sequence`, acting on the row data; `i` is `row_idx`.
A valid index sets `encoded[row_idx, col_idx] = 1.0`; the sentinel -1
sets `encoded[row_idx, :] = 0.25`; an invalid base raises, leaving the
array as it stands. -/
def oneHotLoop : List Char → Nat → List (List ℚ) →
    Sum (List (List ℚ)) (String × List (List ℚ))
  | [], _, enc => .inl enc
  | ch :: chs, i, enc =>
    match char2index ch with
    | .error e => .inr (e, enc)
    | .ok idx =>
      oneHotLoop chs (i + 1)
        (if 0 ≤ idx then setCell enc i idx.toNat 1
         else setRowUniform enc i ((1 : ℚ) / 4))

/-- `one_hot_encode_sequence(seq, encoded)`: two shape checks
(`encoded.shape[0] == len(seq)` and `encoded.shape[1] == 4`), then the
encoding loop. -/
def one_hot_encode_sequence (seq : List Char) (encoded : Mat) : OneHotResult :=
  if encoded.shape0 ≠ seq.length then
    .err "encoded array not the same length as given seq" encoded
  else if encoded.shape1 ≠ 4 then
    .err "encoded array needs to have 4 columns" encoded
  else
    match oneHotLoop seq 0 encoded.data with
    | .inl d => .ok ⟨encoded.shape0, encoded.shape1, d⟩
    | .inr (e, d) => .err e ⟨encoded.shape0, encoded.shape1, d⟩

/-- The per-position update the loop performs on an individual row
(used to describe the loop's effect row by row). -/
def oneHotStep (ch : Char) (row : List ℚ) : List ℚ :=
  match char2index ch with
  | .ok idx => if 0 ≤ idx then row.set idx.toNat 1 else row.map fun _ => (1 : ℚ) / 4
  | .error _ => row

/-- Reference recursion equivalent to `oneHotLoop` (proved below):
processes the rows in step with the characters instead of indexing into
the whole array. -/
def oneHotRowsRef : List Char → List (List ℚ) →
    Sum (List (List ℚ)) (String × List (List ℚ))
  | [], rows => .inl rows
  | ch :: chs, rows =>
    match rows with
    | [] => .inl []
    | r :: rs =>
      match char2index ch with
      | .error e => .inr (e, r :: rs)
      | .ok _ =>
        match oneHotRowsRef chs rs with
        | .inl out => .inl (oneHotStep ch r :: out)
        | .inr (e, out) => .inr (e, oneHotStep ch r :: out)

/-- The row the claims describe for a base: a single 1.0 in the base's
column over a zero row, or uniform 0.25 for N/n. -/
def oneHotRow (ch : Char) : List ℚ :=
  if ch = 'A' ∨ ch = 'a' then [1, 0, 0, 0]
  else if ch = 'C' ∨ ch = 'c' then [0, 1, 0, 0]
  else if ch = 'G' ∨ ch = 'g' then [0, 0, 1, 0]
  else if ch = 'T' ∨ ch = 't' then [0, 0, 0, 1]
  else [1/4, 1/4, 1/4, 1/4]

/-- A 32-bit float cell value: an exact number or NaN. -/
inductive Val where
  | num (q : ℚ)
  | nan
deriving DecidableEq, Repr

/-- `nan_to_zero(arr)` sets every NaN entry of the 1D array to 0.0
(`arr[np.isnan(arr)] = 0.0`). -/
def nan_to_zero (arr : List Val) : List Val :=
  arr.map fun v => if v = Val.nan then Val.num 0 else v

/-- Outcome of a directory-creation call; `ok` carries the resulting
list of existing paths. -/
inductive OsResult where
  | ok (fs : List String)
  | typeError
  | alreadyExistsError
deriving DecidableEq, Repr

/-- Modelled from the spec: the underlying directory-creation primitive
(`os.makedirs`), external to this repository.  In some environments the
primitive does not accept the `exist_ok` argument and rejects a call
passing it with a TypeError; when the argument is accepted, creating an
existing path fails with an AlreadyExists-style error unless `exist_ok`
is true.  The filesystem is the list of existing paths;
`exist_ok = none` models a call that does not pass the argument. -/
def os_makedirs (supportsExistOk : Bool) (fs : List String) (path : String)
    (exist_ok : Option Bool) : OsResult :=
  match exist_ok with
  | some b =>
    if supportsExistOk then
      if path ∈ fs then (if b then .ok fs else .alreadyExistsError)
      else .ok (path :: fs)
    else .typeError
  | none =>
    if path ∈ fs then .alreadyExistsError else .ok (path :: fs)

/-- `util.makedirs`: try `os.makedirs(path, mode=mode, exist_ok=exist_ok)`;
on TypeError fall back to `if not os.path.exists(path):
os.makedirs(path, mode=mode)`. -/
def makedirs (supportsExistOk : Bool) (fs : List String) (path : String)
    (exist_ok : Bool) : OsResult :=
  match os_makedirs supportsExistOk fs path (some exist_ok) with
  | .typeError =>
    if path ∈ fs then .ok fs
    else os_makedirs supportsExistOk fs path none
  | r => r

/-! ## Definitions: genomelake/extractors.py -/

/-- A genomic interval as consumed by the extractors: `chrom`, `start`,
`stop` and `strand` attributes. -/
structure Interval where
  chrom : String
  start : Int
  stop : Int
  strand : String
deriving DecidableEq, Repr, Inhabited

/-- A numpy array at the level of detail `BaseExtractor` inspects:
object identity, shape and dtype.  The contents are filled by the
subclass hook, which is abstract in `BaseExtractor`. -/
structure NDArray where
  uid : Nat
  shape : List Int
  dtype : String
deriving DecidableEq, Repr

/-- `BaseExtractor.dtype = np.float32`. -/
def float32 : String := "float32"

/-- A freshly allocated `np.zeros(output_shape, dtype=np.float32)`. -/
def np_zeros (shape : List Int) : NDArray := ⟨0, shape, float32⟩

/-- `width = intervals[0].stop - intervals[0].start`. -/
def batchWidth (intervals : List Interval) : Int :=
  (intervals.headD default).stop - (intervals.headD default).start

/-- Rendered message of
`'out array has incorrect shape: {} (need {})'.format(...)`. -/
def shapeErrMsg (got need : List Int) : String :=
  "out array has incorrect shape: " ++ toString got ++ " (need " ++
    toString need ++ ")"

/-- Rendered message of
`'out array has incorrect dtype: {} (need {})'.format(...)`. -/
def dtypeErrMsg (got need : String) : String :=
  "out array has incorrect dtype: " ++ got ++ " (need " ++ need ++ ")"

/-- `BaseExtractor._check_or_create_output_array`: compute the required
shape from the batch size and the first interval's width; allocate a
zero array when no output array was supplied, otherwise validate the
supplied array's shape and dtype. -/
def check_or_create_output_array (getOutputShape : Nat → Int → List Int)
    (intervals : List Interval) (out : Option NDArray) : Except String NDArray :=
  let width := batchWidth intervals
  let output_shape := getOutputShape intervals.length width
  match out with
  | none => .ok (np_zeros output_shape)
  | some o =>
    if o.shape ≠ output_shape then .error (shapeErrMsg o.shape output_shape)
    else if o.dtype ≠ float32 then .error (dtypeErrMsg o.dtype float32)
    else .ok o

/-- `BaseExtractor.__call__`: validate/allocate, then delegate to the
subclass fill hook `_extract` and return the array.  The second
component counts how many times the fill hook ran, to record that a
validation failure happens before any source I/O. -/
def BaseExtractor_call (getOutputShape : Nat → Int → List Int)
    (extract : List Interval → NDArray → NDArray)
    (intervals : List Interval) (out : Option NDArray) :
    Except String NDArray × Nat :=
  match check_or_create_output_array getOutputShape intervals out with
  | .error e => (.error e, 0)
  | .ok data => (.ok (extract intervals data), 1)

/-- What `ArrayExtractor.__init__` binds at construction time: the
shape rule selected from the first chromosome array's dimensionality,
and the multiprocessing-safe flag. -/
structure ArrayExtractorModel where
  getOutputShape : Nat → Int → List Int
  multiprocessing_safe : Bool

/-- `ArrayExtractor.__init__`, abstracted over the shape of the first
chromosome array in the loaded store: 1D gives shape rule
`(num_intervals, width)`, 2D gives `(num_intervals, width, shape[1])`,
anything else raises `ValueError('Can only extract from 1D/2D arrays')`. -/
def ArrayExtractor_init (firstArrShape : List Int) (in_memory : Bool) :
    Except String ArrayExtractorModel :=
  if firstArrShape.length = 1 then
    .ok ⟨fun n w => [(n : Int), w], in_memory⟩
  else if firstArrShape.length = 2 then
    .ok ⟨fun n w => [(n : Int), w, firstArrShape.getD 1 0], in_memory⟩
  else .error "Can only extract from 1D/2D arrays"

/-- `out[index, ::-1, ::-1]`: reverse the position axis and the base
axis of one interval's encoded row. -/
def reverseBoth (m : List (List ℚ)) : List (List ℚ) :=
  (m.map List.reverse).reverse

/-- Watson-Crick complement of a base character (A-T, C-G, case kept,
N and everything else fixed); from the claim's wording. -/
def complementBase (ch : Char) : Char :=
  if ch = 'A' then 'T' else if ch = 'T' then 'A'
  else if ch = 'C' then 'G' else if ch = 'G' then 'C'
  else if ch = 'a' then 't' else if ch = 't' then 'a'
  else if ch = 'c' then 'g' else if ch = 'g' then 'c'
  else ch

/-- Reverse complement of a sequence; from the claim's wording. -/
def reverseComplement (seq : List Char) : List Char :=
  (seq.map complementBase).reverse

/-- The loop body of `FastaExtractor._extract` for one interval: fetch
the sequence, one-hot encode it into the interval's 2D slice of `out`,
then if `use_strand` and the interval is on the negative strand, assign
`out[index, ::-1, ::-1]` back into the slice.  `fasta` models
`FastaFile.fetch`. -/
def FastaExtractor_extract_row (fasta : String → Int → Int → List Char)
    (use_strand : Bool) (iv : Interval) (row : Mat) : OneHotResult :=
  match one_hot_encode_sequence (fasta iv.chrom iv.start iv.stop) row with
  | .err e m => .err e m
  | .ok m =>
    .ok (if use_strand = true ∧ iv.strand = "-" then
      ⟨m.shape0, m.shape1, reverseBoth m.data⟩ else m)

/-- `BigwigExtractor._bigwig_extractor` fill logic: for each interval
write `bw.values(chrom, start, stop)` into the row, then apply
`nan_to_zero` to the row when the `nan_as_zero` option (default true)
is set.  `bw` models `pyBigWig.values`; `none` models an options map
without the `nan_as_zero` key. -/
def bigwig_extractor (bw : String → Int → Int → List Val)
    (intervals : List Interval) (nan_as_zero_opt : Option Bool) :
    List (List Val) :=
  let nan_as_zero := nan_as_zero_opt.getD true
  intervals.map fun iv =>
    let row := bw iv.chrom iv.start iv.stop
    if nan_as_zero then nan_to_zero row else row

/-! ## Lemmas about the one-hot encoding loop -/

lemma setCell_append (pre : List (List ℚ)) (r : List ℚ) (rs : List (List ℚ))
    (j : Nat) (v : ℚ) :
    setCell (pre ++ r :: rs) pre.length j v = pre ++ (r.set j v) :: rs := by
  induction pre with
  | nil => rfl
  | cons p ps ih =>
    simp only [setCell, List.cons_append, List.length_cons, List.getD,
      List.getElem?_cons_succ, List.set_cons_succ] at *
    simpa using ih

lemma setRowUniform_append (pre : List (List ℚ)) (r : List ℚ)
    (rs : List (List ℚ)) (v : ℚ) :
    setRowUniform (pre ++ r :: rs) pre.length v =
      pre ++ (r.map fun _ => v) :: rs := by
  induction pre with
  | nil => rfl
  | cons p ps ih =>
    simp only [setRowUniform, List.cons_append, List.length_cons, List.getD,
      List.getElem?_cons_succ, List.set_cons_succ] at *
    simpa using ih

/-- The indexed mutation loop agrees with the reference recursion on any
array that has exactly one row per character after the prefix. -/
lemma oneHotLoop_eq_ref (seq : List Char) :
    ∀ (pre rest : List (List ℚ)), rest.length = seq.length →
    oneHotLoop seq pre.length (pre ++ rest) =
      (match oneHotRowsRef seq rest with
       | .inl out => .inl (pre ++ out)
       | .inr (e, out) => .inr (e, pre ++ out)) := by
  induction seq with
  | nil =>
    intro pre rest h
    have : rest = [] := List.length_eq_zero.mp h
    subst this
    rfl
  | cons ch chs ih =>
    intro pre rest h
    match rest with
    | [] => simp at h
    | r :: rs =>
      have hlen : rs.length = chs.length := by simpa using h
      cases hc : char2index ch with
      | error e =>
        simp only [oneHotLoop, oneHotRowsRef, hc]
      | ok idx =>
        have hstep : (if 0 ≤ idx then setCell (pre ++ r :: rs) pre.length idx.toNat 1
            else setRowUniform (pre ++ r :: rs) pre.length ((1 : ℚ) / 4)) =
            pre ++ oneHotStep ch r :: rs := by
          by_cases h0 : 0 ≤ idx
          · simp [h0, setCell_append, oneHotStep, hc]
          · simp [h0, setRowUniform_append, oneHotStep, hc]
        have hlen' : pre.length + 1 = (pre ++ [oneHotStep ch r]).length := by simp
        simp only [oneHotLoop, oneHotRowsRef, hc, hstep]
        have : pre ++ oneHotStep ch r :: rs = (pre ++ [oneHotStep ch r]) ++ rs := by
          simp
        rw [this, hlen', ih (pre ++ [oneHotStep ch r]) rs hlen]
        cases href : oneHotRowsRef chs rs with
        | inl out => simp
        | inr p => obtain ⟨e, out⟩ := p; simp

lemma char2index_error_iff (ch : Char) :
    char2index ch = .error "Invalid base encountered." ↔ ch ∉ dnaAlphabet := by
  unfold char2index
  split_ifs with h1 h2 h3 h4 h5
  all_goals simp_all [dnaAlphabet]
  all_goals tauto

lemma char2index_error_msg (ch : Char) (e : String)
    (h : char2index ch = .error e) : e = "Invalid base encountered." := by
  unfold char2index at h
  split_ifs at h
  all_goals simp_all

lemma char2index_ok_of_mem (ch : Char) (h : ch ∈ dnaAlphabet) :
    ∃ idx, char2index ch = .ok idx := by
  cases hc : char2index ch with
  | ok idx => exact ⟨idx, rfl⟩
  | error e =>
    have he := char2index_error_msg ch e hc
    subst he
    exact absurd ((char2index_error_iff ch).mp hc) (by simpa using h)

lemma oneHotRowsRef_valid (seq : List Char) :
    ∀ rows : List (List ℚ), rows.length = seq.length →
    (∀ ch ∈ seq, ch ∈ dnaAlphabet) →
    oneHotRowsRef seq rows = .inl (List.zipWith oneHotStep seq rows) := by
  induction seq with
  | nil =>
    intro rows h _
    have : rows = [] := List.length_eq_zero.mp h
    subst this; rfl
  | cons ch chs ih =>
    intro rows h hv
    match rows with
    | [] => simp at h
    | r :: rs =>
      have hlen : rs.length = chs.length := by simpa using h
      obtain ⟨idx, hc⟩ := char2index_ok_of_mem ch (hv ch (by simp))
      simp only [oneHotRowsRef, hc, ih rs hlen (fun c hc2 => hv c (by simp [hc2])),
        List.zipWith]

/-- Reaching an invalid base after a valid prefix leaves the processed
prefix transformed row by row and everything from the failing position
on untouched. -/
lemma oneHotRowsRef_err (good : List Char) (bad : Char) (tail : List Char) :
    ∀ rows : List (List ℚ), rows.length = (good ++ bad :: tail).length →
    (∀ ch ∈ good, ch ∈ dnaAlphabet) → bad ∉ dnaAlphabet →
    oneHotRowsRef (good ++ bad :: tail) rows =
      .inr ("Invalid base encountered.",
        List.zipWith oneHotStep good (rows.take good.length) ++
          rows.drop good.length) := by
  induction good with
  | nil =>
    intro rows h _ hbad
    match rows with
    | [] => simp at h
    | r :: rs =>
      have hc : char2index bad = .error "Invalid base encountered." :=
        (char2index_error_iff bad).mpr hbad
      simp [oneHotRowsRef, hc]
  | cons g gs ih =>
    intro rows h hv hbad
    match rows with
    | [] => simp at h
    | r :: rs =>
      have hlen : rs.length = (gs ++ bad :: tail).length := by simpa using h
      obtain ⟨idx, hc⟩ := char2index_ok_of_mem g (hv g (by simp))
      simp only [List.cons_append, oneHotRowsRef, hc, List.append_eq,
        ih rs hlen (fun c hc2 => hv c (by simp [hc2])) hbad,
        List.length_cons, List.take_succ_cons, List.drop_succ_cons,
        List.zipWith, List.cons_append]

lemma oneHotStep_zrow (ch : Char) (h : ch ∈ dnaAlphabet) :
    oneHotStep ch (List.replicate 4 0) = oneHotRow ch := by
  simp only [dnaAlphabet, List.mem_cons, List.not_mem_nil, or_false] at h
  rcases h with rfl | rfl | rfl | rfl | rfl | rfl | rfl | rfl | rfl | rfl
  all_goals rfl

lemma zipWith_step_replicate (seq : List Char)
    (h : ∀ ch ∈ seq, ch ∈ dnaAlphabet) :
    List.zipWith oneHotStep seq
      (List.replicate seq.length (List.replicate 4 0)) = seq.map oneHotRow := by
  induction seq with
  | nil => rfl
  | cons ch chs ih =>
    rw [List.length_cons, List.replicate_succ, List.zipWith_cons_cons, List.map,
      oneHotStep_zrow ch (h ch (by simp)), ih (fun c hc => h c (by simp [hc]))]

/-- Encoding a valid sequence into a fresh zero array of the right shape
succeeds and produces one claimed row per base. -/
lemma one_hot_zeros_valid (seq : List Char) (h : ∀ ch ∈ seq, ch ∈ dnaAlphabet) :
    one_hot_encode_sequence seq (zerosMat seq.length 4) =
      OneHotResult.ok ⟨seq.length, 4, seq.map oneHotRow⟩ := by
  have hloop := oneHotLoop_eq_ref seq []
    (List.replicate seq.length (List.replicate 4 0)) (by simp)
  rw [oneHotRowsRef_valid seq _ (by simp) h] at hloop
  simp only [List.nil_append, List.length_nil] at hloop
  rw [zipWith_step_replicate seq h] at hloop
  unfold one_hot_encode_sequence
  simp only [zerosMat, ne_eq]
  rw [if_neg (by simp), if_neg (by simp), hloop]

lemma oneHotLoop_err_of_invalid (seq : List Char) :
    ∀ (i : Nat) (enc : List (List ℚ)), (∃ ch ∈ seq, ch ∉ dnaAlphabet) →
    ∃ d, oneHotLoop seq i enc = .inr ("Invalid base encountered.", d) := by
  induction seq with
  | nil => intro i enc h; simp at h
  | cons ch chs ih =>
    intro i enc h
    cases hc : char2index ch with
    | error e =>
      have he := char2index_error_msg ch e hc
      subst he
      exact ⟨enc, by simp [oneHotLoop, hc]⟩
    | ok idx =>
      have hch : ch ∈ dnaAlphabet := by
        by_contra hn
        rw [(char2index_error_iff ch).mpr hn] at hc
        exact absurd hc (by simp)
      obtain ⟨c, hcmem, hcinv⟩ := h
      rcases List.mem_cons.mp hcmem with rfl | hmem
      · exact absurd hch hcinv
      · obtain ⟨d, hd⟩ := ih (i + 1)
          (if 0 ≤ idx then setCell enc i idx.toNat 1
           else setRowUniform enc i ((1 : ℚ) / 4)) ⟨c, hmem, hcinv⟩
        exact ⟨d, by simp only [oneHotLoop, hc, hd]⟩

lemma toLower_mem_alphabet (ch : Char) (h : ch ∈ dnaAlphabet) :
    Char.toLower ch ∈ dnaAlphabet := by
  simp only [dnaAlphabet, List.mem_cons, List.not_mem_nil, or_false] at h ⊢
  rcases h with rfl | rfl | rfl | rfl | rfl | rfl | rfl | rfl | rfl | rfl
  all_goals decide

lemma toUpper_mem_alphabet (ch : Char) (h : ch ∈ dnaAlphabet) :
    Char.toUpper ch ∈ dnaAlphabet := by
  simp only [dnaAlphabet, List.mem_cons, List.not_mem_nil, or_false] at h ⊢
  rcases h with rfl | rfl | rfl | rfl | rfl | rfl | rfl | rfl | rfl | rfl
  all_goals decide

lemma oneHotRow_lower_upper (ch : Char) (h : ch ∈ dnaAlphabet) :
    oneHotRow (Char.toLower ch) = oneHotRow (Char.toUpper ch) := by
  simp only [dnaAlphabet, List.mem_cons, List.not_mem_nil, or_false] at h
  rcases h with rfl | rfl | rfl | rfl | rfl | rfl | rfl | rfl | rfl | rfl
  all_goals rfl

lemma oneHotRow_complement (ch : Char) (h : ch ∈ dnaAlphabet) :
    (oneHotRow ch).reverse = oneHotRow (complementBase ch) := by
  simp only [dnaAlphabet, List.mem_cons, List.not_mem_nil, or_false] at h
  rcases h with rfl | rfl | rfl | rfl | rfl | rfl | rfl | rfl | rfl | rfl
  all_goals rfl

/-- Reversing both axes of the encoded matrix is exactly the encoding of
the reverse complement; a property of the (A, C, G, T) column order. -/
lemma reverseBoth_oneHot (seq : List Char) (h : ∀ ch ∈ seq, ch ∈ dnaAlphabet) :
    reverseBoth (seq.map oneHotRow) = (reverseComplement seq).map oneHotRow := by
  unfold reverseBoth reverseComplement
  rw [List.map_map, List.map_reverse, List.map_map]
  congr 1
  exact List.map_congr_left fun c hc => oneHotRow_complement c (h c hc)

/-! ## Lemmas about the extractor framework -/

lemma shapeErrMsg_ne_dtypeErrMsg (g1 n1 : List Int) (g2 n2 : String) :
    shapeErrMsg g1 n1 ≠ dtypeErrMsg g2 n2 := by
  intro h
  have hd := congrArg String.data h
  unfold shapeErrMsg dtypeErrMsg at hd
  simp only [String.data_append, List.append_assoc] at hd
  have hpre := (List.append_inj hd (by decide)).1
  exact absurd hpre (by decide)

/-! ## The claims -/

/-- C1: for every DNA sequence over the accepted alphabet and a
zero-initialized array of shape `(len(seq), 4)`,
`one_hot_encode_sequence` succeeds and writes, for each position, the
row with 1.0 in the base's column and 0 elsewhere, or uniform 0.25 for
N/n (the "ACGTN" instance is the witness below). -/
theorem claim_C1 (seq : List Char) (h : ∀ ch ∈ seq, ch ∈ dnaAlphabet) :
    one_hot_encode_sequence seq (zerosMat seq.length 4) =
      OneHotResult.ok ⟨seq.length, 4, seq.map oneHotRow⟩ :=
  one_hot_zeros_valid seq h

theorem claim_C1_witness :
    one_hot_encode_sequence ['A', 'C', 'G', 'T', 'N'] (zerosMat 5 4) =
      OneHotResult.ok ⟨5, 4, [[1, 0, 0, 0], [0, 1, 0, 0], [0, 0, 1, 0],
        [0, 0, 0, 1], [1/4, 1/4, 1/4, 1/4]]⟩ := by
  have h := claim_C1 ['A', 'C', 'G', 'T', 'N'] (by decide)
  exact h.trans (by rfl)

/-- C2: a caller-supplied output array of the wrong shape or wrong dtype
makes the extractor call fail with the corresponding distinct message
before the fill hook runs (invocation count 0); a matching array is
passed to the fill hook exactly once and returned as the same object
(identity preserved by the in-place fill). -/
theorem claim_C2 (getOutputShape : Nat → Int → List Int)
    (extract : List Interval → NDArray → NDArray)
    (intervals : List Interval) (o : NDArray)
    (hid : ∀ ivs a, (extract ivs a).uid = a.uid) :
    (o.shape ≠ getOutputShape intervals.length (batchWidth intervals) →
      BaseExtractor_call getOutputShape extract intervals (some o) =
        (.error (shapeErrMsg o.shape
          (getOutputShape intervals.length (batchWidth intervals))), 0))
    ∧ (o.shape = getOutputShape intervals.length (batchWidth intervals) →
       o.dtype ≠ float32 →
      BaseExtractor_call getOutputShape extract intervals (some o) =
        (.error (dtypeErrMsg o.dtype float32), 0))
    ∧ (∀ g1 n1 g2 n2, shapeErrMsg g1 n1 ≠ dtypeErrMsg g2 n2)
    ∧ (o.shape = getOutputShape intervals.length (batchWidth intervals) →
       o.dtype = float32 →
      BaseExtractor_call getOutputShape extract intervals (some o) =
        (.ok (extract intervals o), 1)
      ∧ (extract intervals o).uid = o.uid) := by
  refine ⟨?_, ?_, shapeErrMsg_ne_dtypeErrMsg, ?_⟩
  · intro hs
    unfold BaseExtractor_call check_or_create_output_array
    simp only [if_pos hs, ne_eq, hs, not_false_iff, if_true]
  · intro hs hd
    unfold BaseExtractor_call check_or_create_output_array
    simp only [ne_eq, hs, not_true, if_false, if_pos hd, ite_not, if_neg hd]
  · intro hs hd
    unfold BaseExtractor_call check_or_create_output_array
    simp only [ne_eq, hs, not_true, if_false, hd, ite_not, if_true]
    exact ⟨trivial, hid intervals o⟩

theorem claim_C2_witness :
    BaseExtractor_call (fun n w => [(n : Int), w]) (fun _ a => a)
      [⟨"chr1", 0, 5, "+"⟩] (some ⟨7, [9, 9], float32⟩) =
      (.error (shapeErrMsg [9, 9] [1, 5]), 0)
    ∧ shapeErrMsg [9, 9] [1, 5] ≠ dtypeErrMsg "float64" "float32"
    ∧ BaseExtractor_call (fun n w => [(n : Int), w]) (fun _ a => a)
      [⟨"chr1", 0, 5, "+"⟩] (some ⟨7, [1, 5], float32⟩) =
      (.ok ⟨7, [1, 5], float32⟩, 1) := by
  have h := claim_C2 (fun n w => [(n : Int), w]) (fun _ a => a)
    [⟨"chr1", 0, 5, "+"⟩] ⟨7, [9, 9], float32⟩ (fun _ _ => rfl)
  have h2 := claim_C2 (fun n w => [(n : Int), w]) (fun _ a => a)
    [⟨"chr1", 0, 5, "+"⟩] ⟨7, [1, 5], float32⟩ (fun _ _ => rfl)
  exact ⟨h.1 (by decide), h.2.2.1 [9, 9] [1, 5] "float64" "float32",
    (h2.2.2.2 (by decide) (by rfl)).1⟩

/-- C3: an array extractor built on a store whose first chromosome array
is 1D yields outputs of shape `(N, W)`; on a 2D array with second
dimension D it yields `(N, W, D)`; any other dimensionality fails at
construction with the InvalidInput error. -/
theorem claim_C3 (firstArrShape : List Int) (in_memory : Bool)
    (extract : List Interval → NDArray → NDArray)
    (hshape : ∀ ivs a, (extract ivs a).shape = a.shape)
    (intervals : List Interval) :
    (firstArrShape.length = 1 →
      ∃ m, ArrayExtractor_init firstArrShape in_memory = .ok m ∧
        ∃ res, BaseExtractor_call m.getOutputShape extract intervals none =
          (.ok res, 1) ∧
          res.shape = [(intervals.length : Int), batchWidth intervals])
    ∧ (∀ d0 d1, firstArrShape = [d0, d1] →
      ∃ m, ArrayExtractor_init firstArrShape in_memory = .ok m ∧
        ∃ res, BaseExtractor_call m.getOutputShape extract intervals none =
          (.ok res, 1) ∧
          res.shape = [(intervals.length : Int), batchWidth intervals, d1])
    ∧ (firstArrShape.length ≠ 1 → firstArrShape.length ≠ 2 →
      ArrayExtractor_init firstArrShape in_memory =
        .error "Can only extract from 1D/2D arrays") := by
  refine ⟨?_, ?_, ?_⟩
  · intro h1
    refine ⟨⟨fun n w => [(n : Int), w], in_memory⟩, ?_, ?_⟩
    · unfold ArrayExtractor_init
      rw [if_pos h1]
    · refine ⟨extract intervals
        (np_zeros [(intervals.length : Int), batchWidth intervals]), rfl, ?_⟩
      rw [hshape]
      rfl
  · intro d0 d1 h2
    subst h2
    refine ⟨⟨fun n w => [(n : Int), w, d1], in_memory⟩, ?_, ?_⟩
    · unfold ArrayExtractor_init
      norm_num
    · refine ⟨extract intervals
        (np_zeros [(intervals.length : Int), batchWidth intervals, d1]), rfl, ?_⟩
      rw [hshape]
      rfl
  · intro h1 h2
    unfold ArrayExtractor_init
    rw [if_neg h1, if_neg h2]

theorem claim_C3_witness :
    (∃ m, ArrayExtractor_init [100] false = .ok m ∧
      ∃ res, BaseExtractor_call m.getOutputShape (fun _ a => a)
        [⟨"chr1", 2, 7, "+"⟩, ⟨"chr1", 10, 15, "+"⟩] none =
        (.ok res, 1) ∧ res.shape = [2, 5])
    ∧ (∃ m, ArrayExtractor_init [100, 3] false = .ok m ∧
      ∃ res, BaseExtractor_call m.getOutputShape (fun _ a => a)
        [⟨"chr1", 2, 7, "+"⟩] none = (.ok res, 1) ∧ res.shape = [1, 5, 3])
    ∧ ArrayExtractor_init [2, 2, 2] false =
        .error "Can only extract from 1D/2D arrays" := by
  refine ⟨?_, ?_, ?_⟩
  · exact (claim_C3 [100] false (fun _ a => a) (fun _ _ => rfl)
      [⟨"chr1", 2, 7, "+"⟩, ⟨"chr1", 10, 15, "+"⟩]).1 (by decide)
  · exact (claim_C3 [100, 3] false (fun _ a => a) (fun _ _ => rfl)
      [⟨"chr1", 2, 7, "+"⟩]).2.1 100 3 rfl
  · exact (claim_C3 [2, 2, 2] false (fun _ a => a) (fun _ _ => rfl) []).2.2
      (by decide) (by decide)

/-- C4: with `use_strand` enabled and a negative-strand interval, the
FASTA extractor's row is the one-hot encoding reversed along both axes,
which equals the one-hot encoding of the reverse complement of the
fetched sequence. -/
theorem claim_C4 (fasta : String → Int → Int → List Char) (iv : Interval)
    (hstrand : iv.strand = "-")
    (hvalid : ∀ ch ∈ fasta iv.chrom iv.start iv.stop, ch ∈ dnaAlphabet) :
    FastaExtractor_extract_row fasta true iv
      (zerosMat (fasta iv.chrom iv.start iv.stop).length 4) =
      OneHotResult.ok ⟨(fasta iv.chrom iv.start iv.stop).length, 4,
        reverseBoth ((fasta iv.chrom iv.start iv.stop).map oneHotRow)⟩
    ∧ reverseBoth ((fasta iv.chrom iv.start iv.stop).map oneHotRow) =
        (reverseComplement (fasta iv.chrom iv.start iv.stop)).map oneHotRow := by
  refine ⟨?_, reverseBoth_oneHot _ hvalid⟩
  unfold FastaExtractor_extract_row
  rw [one_hot_zeros_valid _ hvalid]
  dsimp only
  rw [if_pos ⟨rfl, hstrand⟩]

theorem claim_C4_witness :
    FastaExtractor_extract_row (fun _ _ _ => ['A', 'A', 'C', 'G']) true
      ⟨"chr1", 0, 4, "-"⟩ (zerosMat 4 4) =
      OneHotResult.ok ⟨4, 4,
        [[0, 1, 0, 0], [0, 0, 1, 0], [0, 0, 0, 1], [0, 0, 0, 1]]⟩
    ∧ reverseComplement ['A', 'A', 'C', 'G'] = ['C', 'G', 'T', 'T'] := by
  have h := claim_C4 (fun _ _ _ => ['A', 'A', 'C', 'G']) ⟨"chr1", 0, 4, "-"⟩
    rfl (by decide)
  exact ⟨h.1.trans (by rfl), by rfl⟩

/-- C5: the BigWig fill logic defaults `nan_as_zero` to true; with it
set, each row is the fetched values with every NaN replaced by 0.0 and
non-NaN values unchanged (the pointwise description of `nan_to_zero`);
with it unset, the fetched values are written as-is. -/
theorem claim_C5 (bw : String → Int → Int → List Val)
    (intervals : List Interval) :
    bigwig_extractor bw intervals none = bigwig_extractor bw intervals (some true)
    ∧ bigwig_extractor bw intervals (some true) =
        intervals.map (fun iv => nan_to_zero (bw iv.chrom iv.start iv.stop))
    ∧ (∀ (xs : List Val) (i : Nat), (nan_to_zero xs).getD i (Val.num 0) =
        if xs.getD i (Val.num 0) = Val.nan then Val.num 0
        else xs.getD i (Val.num 0))
    ∧ bigwig_extractor bw intervals (some false) =
        intervals.map (fun iv => bw iv.chrom iv.start iv.stop) := by
  refine ⟨rfl, rfl, ?_, ?_⟩
  · intro xs i
    induction xs generalizing i with
    | nil => simp [nan_to_zero]
    | cons v vs ih =>
      cases i with
      | zero => simp [nan_to_zero]
      | succ n => simpa [nan_to_zero] using ih n
  · simp [bigwig_extractor]

/-- C6: `char2index` fails with the InvalidInput error exactly on
characters outside the ten accepted ones, and one-hot encoding a
sequence containing such a character (with the shape checks passing)
fails with that error. -/
theorem claim_C6 :
    (∀ ch : Char,
      char2index ch = .error "Invalid base encountered." ↔ ch ∉ dnaAlphabet)
    ∧ (∀ (seq : List Char) (m : Mat), m.shape0 = seq.length → m.shape1 = 4 →
        (∃ ch ∈ seq, ch ∉ dnaAlphabet) →
        ∃ d, one_hot_encode_sequence seq m =
          OneHotResult.err "Invalid base encountered." ⟨m.shape0, m.shape1, d⟩) := by
  refine ⟨char2index_error_iff, ?_⟩
  intro seq m h0 h1 hinv
  obtain ⟨d, hd⟩ := oneHotLoop_err_of_invalid seq 0 m.data hinv
  refine ⟨d, ?_⟩
  unfold one_hot_encode_sequence
  rw [if_neg (by simp [h0]), if_neg (by simp [h1]), hd]

theorem claim_C6_witness :
    char2index 'X' = .error "Invalid base encountered."
    ∧ ∃ d, one_hot_encode_sequence ['A', 'X'] (zerosMat 2 4) =
        OneHotResult.err "Invalid base encountered." ⟨2, 4, d⟩ :=
  ⟨(claim_C6.1 'X').mpr (by decide),
   claim_C6.2 ['A', 'X'] (zerosMat 2 4) (by rfl) (by rfl) ⟨'X', by decide, by decide⟩⟩

/-- C7: one-hot encoding is case-insensitive: encoding the lowercase
form of a DNA sequence into a fresh zero array gives the same result as
encoding the uppercase form. -/
theorem claim_C7 (seq : List Char) (h : ∀ ch ∈ seq, ch ∈ dnaAlphabet) :
    one_hot_encode_sequence (seq.map Char.toLower) (zerosMat seq.length 4) =
      one_hot_encode_sequence (seq.map Char.toUpper) (zerosMat seq.length 4) := by
  have hl : ∀ ch ∈ seq.map Char.toLower, ch ∈ dnaAlphabet := by
    intro ch hch
    obtain ⟨c, hc, rfl⟩ := List.mem_map.mp hch
    exact toLower_mem_alphabet c (h c hc)
  have hu : ∀ ch ∈ seq.map Char.toUpper, ch ∈ dnaAlphabet := by
    intro ch hch
    obtain ⟨c, hc, rfl⟩ := List.mem_map.mp hch
    exact toUpper_mem_alphabet c (h c hc)
  have e1 := one_hot_zeros_valid (seq.map Char.toLower) hl
  have e2 := one_hot_zeros_valid (seq.map Char.toUpper) hu
  simp only [List.length_map] at e1 e2
  rw [e1, e2, List.map_map, List.map_map]
  have heq : seq.map (oneHotRow ∘ Char.toLower) =
      seq.map (oneHotRow ∘ Char.toUpper) :=
    List.map_congr_left fun c hc => oneHotRow_lower_upper c (h c hc)
  rw [heq]

theorem claim_C7_witness :
    one_hot_encode_sequence ['a', 'c', 'g', 't'] (zerosMat 4 4) =
      one_hot_encode_sequence ['A', 'C', 'G', 'T'] (zerosMat 4 4) :=
  claim_C7 ['A', 'C', 'G', 'T'] (by decide)

/-- C8: `nan_to_zero` is idempotent, and on an array without NaNs it is
the identity. -/
theorem claim_C8 (arr : List Val) :
    nan_to_zero (nan_to_zero arr) = nan_to_zero arr
    ∧ ((∀ v ∈ arr, v ≠ Val.nan) → nan_to_zero arr = arr) := by
  constructor
  · induction arr with
    | nil => rfl
    | cons v vs ih =>
      by_cases h : v = Val.nan <;> simp [nan_to_zero, h] <;>
        simpa [nan_to_zero] using ih
  · intro h
    induction arr with
    | nil => rfl
    | cons v vs ih =>
      simp only [nan_to_zero, List.map, if_neg (h v (by simp))]
      congr 1
      simpa [nan_to_zero] using ih fun c hc => h c (by simp [hc])

theorem claim_C8_witness :
    nan_to_zero (nan_to_zero [Val.nan, Val.num 2]) =
      nan_to_zero [Val.nan, Val.num 2]
    ∧ nan_to_zero [Val.num 1, Val.num 2] = [Val.num 1, Val.num 2] :=
  ⟨(claim_C8 [Val.nan, Val.num 2]).1,
   (claim_C8 [Val.num 1, Val.num 2]).2 (by decide)⟩

/-- C9 counterexample: in the fallback environment (the primitive
rejects the `exist_ok` argument), calling `makedirs` on an existing path
with the flag unset succeeds silently instead of failing with an
AlreadyExists-style error, contradicting the claim's "this holds
including in the fallback". -/
theorem claim_C9_counterexample :
    makedirs false ["data"] "data" false = OsResult.ok ["data"]
    ∧ makedirs false ["data"] "data" false ≠ OsResult.alreadyExistsError := by
  constructor
  · decide
  · decide

/-- C9 (amended): for an existing path, `makedirs` with the flag set
succeeds in every environment; with the flag unset it fails with the
AlreadyExists-style error when the primitive accepts the `exist_ok`
argument, but in the fallback environment it succeeds without error. -/
theorem claim_C9 (fs : List String) (path : String) (h : path ∈ fs) :
    (∀ supportsExistOk, makedirs supportsExistOk fs path true = OsResult.ok fs)
    ∧ makedirs true fs path false = OsResult.alreadyExistsError
    ∧ makedirs false fs path false = OsResult.ok fs := by
  refine ⟨?_, ?_, ?_⟩
  · intro sup
    cases sup <;> simp [makedirs, os_makedirs, h]
  · simp [makedirs, os_makedirs, h]
  · simp [makedirs, os_makedirs, h]

theorem claim_C9_witness :
    makedirs true ["d"] "d" true = OsResult.ok ["d"]
    ∧ makedirs true ["d"] "d" false = OsResult.alreadyExistsError
    ∧ makedirs false ["d"] "d" false = OsResult.ok ["d"] :=
  ⟨(claim_C9 ["d"] "d" (by decide)).1 true,
   (claim_C9 ["d"] "d" (by decide)).2.1,
   (claim_C9 ["d"] "d" (by decide)).2.2⟩

/-- C10: when the shape checks pass and the first invalid base sits at
position k (= `good.length`), `one_hot_encode_sequence` raises with the
rows before k already rewritten (cell set to 1.0 for valid bases,
uniform 0.25 row for N/n) and the rows from k on untouched; the two
shape-check failures return the array completely unmodified. -/
theorem claim_C10 (m : Mat) (good : List Char) (bad : Char) (tail : List Char)
    (hlen : m.data.length = m.shape0)
    (h0 : m.shape0 = (good ++ bad :: tail).length)
    (h1 : m.shape1 = 4)
    (hv : ∀ ch ∈ good, ch ∈ dnaAlphabet)
    (hbad : bad ∉ dnaAlphabet) :
    one_hot_encode_sequence (good ++ bad :: tail) m =
      OneHotResult.err "Invalid base encountered."
        ⟨m.shape0, m.shape1,
          List.zipWith oneHotStep good (m.data.take good.length) ++
            m.data.drop good.length⟩
    ∧ (∀ seq : List Char, m.shape0 ≠ seq.length →
        one_hot_encode_sequence seq m =
          OneHotResult.err "encoded array not the same length as given seq" m)
    ∧ (∀ seq : List Char, m.shape0 = seq.length → m.shape1 ≠ 4 →
        one_hot_encode_sequence seq m =
          OneHotResult.err "encoded array needs to have 4 columns" m) := by
  refine ⟨?_, ?_, ?_⟩
  · have hloop := oneHotLoop_eq_ref (good ++ bad :: tail) [] m.data
      (hlen.trans h0)
    rw [oneHotRowsRef_err good bad tail m.data (hlen.trans h0) hv hbad] at hloop
    simp only [List.nil_append, List.length_nil] at hloop
    unfold one_hot_encode_sequence
    rw [if_neg (by simp [h0]), if_neg (by simp [h1]), hloop]
  · intro seq hne
    unfold one_hot_encode_sequence
    rw [if_pos hne]
  · intro seq he hne
    unfold one_hot_encode_sequence
    rw [if_neg (by simp [he]), if_pos hne]

theorem claim_C10_witness :
    one_hot_encode_sequence ['A', 'X', 'C'] (zerosMat 3 4) =
      OneHotResult.err "Invalid base encountered."
        ⟨3, 4, [[1, 0, 0, 0], [0, 0, 0, 0], [0, 0, 0, 0]]⟩
    ∧ one_hot_encode_sequence ['A', 'C'] (zerosMat 3 4) =
      OneHotResult.err "encoded array not the same length as given seq"
        (zerosMat 3 4) := by
  have h := claim_C10 (zerosMat 3 4) ['A'] 'X' ['C'] (by rfl) (by rfl) (by rfl)
    (by decide) (by decide)
  exact ⟨h.1.trans (by rfl), h.2.1 ['A', 'C'] (by decide)⟩

end Genomelake
